import Mathlib

/-!
Verification development for the job-application tracker single-page app
(`src/src/app/App.tsx` and components). The state-bearing logic of the app —
session handling, per-user persistence through the browser's string key-value
store, the in-memory application list, and the best-effort notification
dispatch — is embedded shallowly below; `App.tsx` bundles two variants of the
component and the later one (the variant with the parse guard in
`loadUserData` and the duplicate-login guard in the auth listener), which is
the one the accompanying design document describes, is the one embedded.

The browser supplies `JSON.stringify` / `JSON.parse`; the code calls them on
the persisted snapshot. They are modelled by an executable printer and parser
over a JSON value tree: the printer mirrors `JSON.stringify`'s output format
(no inter-token whitespace, object fields in insertion order, control
characters escaped), and the parser implements the ECMA-404 grammar the way
`JSON.parse` accepts it (whitespace between tokens, all escape forms, number
tokens kept as raw text since the app never reads numeric fields).
-/

namespace JobTrack

/-- Whitespace characters JSON permits between tokens. -/
def isJsonWs (c : Char) : Bool :=
  c == ' ' || c == '\t' || c == '\n' || c == '\r'

/-- Drop leading JSON whitespace. -/
def skipWs : List Char → List Char
  | [] => []
  | c :: cs => if isJsonWs c then skipWs cs else c :: cs

/-- Lower-case hex digit for a value below 16, as `JSON.stringify` emits in
its `\u00XX` escapes. -/
def hexDigitChar (n : Nat) : Char :=
  if n < 10 then Char.ofNat (48 + n) else Char.ofNat (87 + n)

/-- Numeric value of a hex digit character, accepting both cases. -/
def hexVal? (c : Char) : Option Nat :=
  if 48 ≤ c.toNat && c.toNat ≤ 57 then some (c.toNat - 48)
  else if 97 ≤ c.toNat && c.toNat ≤ 102 then some (c.toNat - 87)
  else if 65 ≤ c.toNat && c.toNat ≤ 70 then some (c.toNat - 55)
  else none

/-- How `JSON.stringify` renders one character inside a string literal: the
two-character escapes for quote, backslash and the five named control
characters, `\u00XX` for the remaining control characters, and the character
itself otherwise. -/
def escapeChar (c : Char) : List Char :=
  if c == '"' then ['\\', '"']
  else if c == '\\' then ['\\', '\\']
  else if c == '\x08' then ['\\', 'b']
  else if c == '\t' then ['\\', 't']
  else if c == '\n' then ['\\', 'n']
  else if c == '\x0c' then ['\\', 'f']
  else if c == '\r' then ['\\', 'r']
  else if c.toNat < 32 then
    ['\\', 'u', '0', '0', hexDigitChar (c.toNat / 16), hexDigitChar (c.toNat % 16)]
  else [c]

/-- Escape every character of a string body. -/
def escString : List Char → List Char
  | [] => []
  | c :: cs => escapeChar c ++ escString cs

/-- Decoding of a single-character escape (`\"`, `\\`, `\/`, `\b`, `\t`,
`\n`, `\f`, `\r`). -/
def unescape? (e : Char) : Option Char :=
  if e == '"' then some '"'
  else if e == '\\' then some '\\'
  else if e == '/' then some '/'
  else if e == 'b' then some '\x08'
  else if e == 't' then some '\t'
  else if e == 'n' then some '\n'
  else if e == 'f' then some '\x0c'
  else if e == 'r' then some '\r'
  else none

/-- Parse the body of a JSON string literal after its opening quote:
returns the decoded characters and the input following the closing quote.
Raw control characters are rejected, as `JSON.parse` rejects them. -/
def parseStringBody : List Char → Option (List Char × List Char)
  | [] => none
  | c :: cs =>
    if c == '"' then some ([], cs)
    else if c == '\\' then
      match cs with
      | 'u' :: h1 :: h2 :: h3 :: h4 :: cs3 =>
        match hexVal? h1, hexVal? h2, hexVal? h3, hexVal? h4 with
        | some v1, some v2, some v3, some v4 =>
          match parseStringBody cs3 with
          | some (out, rest) =>
            some (Char.ofNat (((v1 * 16 + v2) * 16 + v3) * 16 + v4) :: out, rest)
          | none => none
        | _, _, _, _ => none
      | 'u' :: _ => none
      | e :: cs2 =>
        match unescape? e with
        | some d =>
          match parseStringBody cs2 with
          | some (out, rest) => some (d :: out, rest)
          | none => none
        | none => none
      | [] => none
    else if c.toNat < 32 then none
    else
      match parseStringBody cs with
      | some (out, rest) => some (c :: out, rest)
      | none => none

/-- Longest prefix of decimal digits, and the remainder. -/
def takeDigits : List Char → List Char × List Char
  | [] => ([], [])
  | c :: cs =>
    if c.isDigit then
      let p := takeDigits cs
      (c :: p.1, p.2)
    else ([], c :: cs)

/-- Fractional part of a JSON number token (`.` followed by at least one
digit), or nothing. -/
def pFrac : List Char → Option (List Char × List Char)
  | '.' :: cs =>
    match takeDigits cs with
    | ([], _) => none
    | (ds, r) => some ('.' :: ds, r)
  | l => some ([], l)

/-- Exponent part of a JSON number token, or nothing. -/
def pExp : List Char → Option (List Char × List Char)
  | [] => some ([], [])
  | c :: cs =>
    if c == 'e' || c == 'E' then
      match cs with
      | [] => none
      | s :: cs2 =>
        if s == '+' || s == '-' then
          match takeDigits cs2 with
          | ([], _) => none
          | (ds, r) => some (c :: s :: ds, r)
        else
          match takeDigits cs with
          | ([], _) => none
          | (ds, r) => some (c :: ds, r)
    else some ([], c :: cs)

/-- Integer part of a JSON number token: `0`, or a nonzero digit followed by
digits. -/
def pIntPart : List Char → Option (List Char × List Char)
  | [] => none
  | c :: cs =>
    if c == '0' then some (['0'], cs)
    else if c.isDigit then
      let p := takeDigits cs
      some (c :: p.1, p.2)
    else none

/-- Parse a JSON number token, keeping it as raw text. -/
def pNum (l : List Char) : Option (String × List Char) :=
  let sp : List Char × List Char :=
    match l with
    | '-' :: cs => (['-'], cs)
    | _ => ([], l)
  match pIntPart sp.2 with
  | none => none
  | some (ip, r1) =>
    match pFrac r1 with
    | none => none
    | some (fp, r2) =>
      match pExp r2 with
      | none => none
      | some (ep, r3) => some (String.mk (sp.1 ++ ip ++ fp ++ ep), r3)

/-- JSON value tree, the result of `JSON.parse` and the input of
`JSON.stringify`. Number tokens are kept as raw text: the app never reads a
numeric field, so their numeric value is never observed. -/
inductive Json where
  | null
  | bool (b : Bool)
  | num (tok : String)
  | str (s : String)
  | arr (elems : List Json)
  | obj (fields : List (String × Json))

/-- The rendering of the `null` literal. -/
def nullChars : List Char := ['n', 'u', 'l', 'l']

/-- The rendering of the `true` literal. -/
def trueChars : List Char := ['t', 'r', 'u', 'e']

/-- The rendering of the `false` literal. -/
def falseChars : List Char := ['f', 'a', 'l', 's', 'e']

mutual

/-- Rendering of a JSON value the way `JSON.stringify` renders it: no
whitespace between tokens, object fields in order. -/
def printL : Json → List Char
  | .null => nullChars
  | .bool true => trueChars
  | .bool false => falseChars
  | .num tok => tok.data
  | .str s => '"' :: (escString s.data ++ ['"'])
  | .arr [] => ['[', ']']
  | .arr (e :: es) => '[' :: (printL e ++ printTailL es)
  | .obj [] => ['\x7b', '\x7d']
  | .obj (m :: ms) => '\x7b' :: (printMemberL m ++ printMTailL ms)

/-- Remaining elements of a printed array: each preceded by a comma, then the
closing bracket. -/
def printTailL : List Json → List Char
  | [] => [']']
  | e :: es => ',' :: (printL e ++ printTailL es)

/-- One printed object member: quoted key, colon, value. -/
def printMemberL : String × Json → List Char
  | (k, v) => '"' :: (escString k.data ++ '"' :: ':' :: printL v)

/-- Remaining members of a printed object: each preceded by a comma, then the
closing brace. -/
def printMTailL : List (String × Json) → List Char
  | [] => ['\x7d']
  | m :: ms => ',' :: (printMemberL m ++ printMTailL ms)

end

mutual

/-- True when the value contains no number token. All snapshots the app
persists are built from strings, arrays and objects only. -/
def numFree : Json → Bool
  | .null => true
  | .bool _ => true
  | .num _ => false
  | .str _ => true
  | .arr es => numFreeL es
  | .obj ms => numFreeM ms

/-- `numFree` over array elements. -/
def numFreeL : List Json → Bool
  | [] => true
  | e :: es => numFree e && numFreeL es

/-- `numFree` over object members. -/
def numFreeM : List (String × Json) → Bool
  | [] => true
  | (_, v) :: ms => numFree v && numFreeM ms

end

mutual

/-- Fuel needed by the parser below to consume a printed value. -/
def jsize : Json → Nat
  | .null => 1
  | .bool _ => 1
  | .num _ => 1
  | .str _ => 1
  | .arr es => 1 + jsizeL es
  | .obj ms => 1 + jsizeM ms

/-- Fuel needed for the remaining elements of a printed array. -/
def jsizeL : List Json → Nat
  | [] => 0
  | e :: es => 1 + jsize e + jsizeL es

/-- Fuel needed for the remaining members of a printed object. -/
def jsizeM : List (String × Json) → Nat
  | [] => 0
  | (_, v) :: ms => 2 + jsize v + jsizeM ms

end

mutual

/-- Parse one JSON value. Fuel bounds the recursion; `parseJsonL` supplies
more fuel than any input can consume. -/
def pVal : Nat → List Char → Option (Json × List Char)
  | 0, _ => none
  | _ + 1, 'n' :: 'u' :: 'l' :: 'l' :: r => some (.null, r)
  | _ + 1, 't' :: 'r' :: 'u' :: 'e' :: r => some (.bool true, r)
  | _ + 1, 'f' :: 'a' :: 'l' :: 's' :: 'e' :: r => some (.bool false, r)
  | _ + 1, '"' :: r =>
    match parseStringBody r with
    | some (cs, rest) => some (.str (String.mk cs), rest)
    | none => none
  | fuel + 1, '[' :: r =>
    match skipWs r with
    | [] => none
    | c :: r1 =>
      if c == ']' then some (.arr [], r1)
      else
        match pVal fuel (c :: r1) with
        | none => none
        | some (j, r2) =>
          match pArrTail fuel (skipWs r2) with
          | none => none
          | some (js, r3) => some (.arr (j :: js), r3)
  | fuel + 1, '\x7b' :: r =>
    match skipWs r with
    | [] => none
    | c :: r1 =>
      if c == '\x7d' then some (.obj [], r1)
      else
        match pMember fuel (c :: r1) with
        | none => none
        | some (m, r2) =>
          match pObjTail fuel (skipWs r2) with
          | none => none
          | some (ms, r3) => some (.obj (m :: ms), r3)
  | _ + 1, l =>
    match pNum l with
    | some (tok, rest) => some (.num tok, rest)
    | none => none

/-- After one array element: a comma and a further element, or the closing
bracket. -/
def pArrTail : Nat → List Char → Option (List Json × List Char)
  | 0, _ => none
  | _ + 1, ']' :: r => some ([], r)
  | fuel + 1, ',' :: r =>
    match pVal fuel (skipWs r) with
    | none => none
    | some (j, r2) =>
      match pArrTail fuel (skipWs r2) with
      | none => none
      | some (js, r3) => some (j :: js, r3)
  | _ + 1, _ => none

/-- After one object member: a comma and a further member, or the closing
brace. -/
def pObjTail : Nat → List Char → Option (List (String × Json) × List Char)
  | 0, _ => none
  | _ + 1, '\x7d' :: r => some ([], r)
  | fuel + 1, ',' :: r =>
    match pMember fuel (skipWs r) with
    | none => none
    | some (m, r2) =>
      match pObjTail fuel (skipWs r2) with
      | none => none
      | some (ms, r3) => some (m :: ms, r3)
  | _ + 1, _ => none

/-- One object member: quoted key, colon, value. -/
def pMember : Nat → List Char → Option ((String × Json) × List Char)
  | 0, _ => none
  | fuel + 1, '"' :: r =>
    match parseStringBody r with
    | none => none
    | some (k, r2) =>
      match skipWs r2 with
      | ':' :: r3 =>
        match pVal fuel (skipWs r3) with
        | none => none
        | some (v, r4) => some ((String.mk k, v), r4)
      | _ => none
  | _ + 1, _ => none

end

/-- Parse a complete JSON text: one value surrounded by optional whitespace,
nothing trailing. `none` models the `SyntaxError` that `JSON.parse` throws. -/
def parseJsonL (l : List Char) : Option Json :=
  let l1 := skipWs l
  match pVal (l1.length + 1) l1 with
  | some (j, rest) =>
    match skipWs rest with
    | [] => some j
    | _ => none
  | none => none

/-- `JSON.parse` on a string. -/
def parseJson (s : String) : Option Json := parseJsonL s.data

/-- `JSON.stringify` on a value. -/
def printJson (j : Json) : String := String.mk (printL j)

/-- Rebuilding a string from its character list is the identity. -/
theorem string_mk_data (s : String) : String.mk s.data = s := rfl

/-- Every JSON value needs at least one unit of fuel. -/
theorem jsize_pos (j : Json) : 1 ≤ jsize j := by
  cases j <;> simp [jsize]

/-- Hex digits printed by the escaper decode to their value. -/
theorem hexVal?_hexDigitChar : ∀ n < 16, hexVal? (hexDigitChar n) = some n := by decide

/-- A string body printed by the escaper parses back to the original
characters, leaving exactly the input that followed the closing quote. -/
theorem parseStringBody_escString (s r : List Char) :
    parseStringBody (escString s ++ '"' :: r) = some (s, r) := by
  induction s with
  | nil =>
    rw [escString, List.nil_append, parseStringBody.eq_def]
    simp
  | cons c cs ih =>
    rw [escString, List.append_assoc]
    by_cases h1 : c == '"'
    · simp only [beq_iff_eq] at h1
      subst h1
      simp [escapeChar, parseStringBody, unescape?, ih]
    · by_cases h2 : c == '\\'
      · simp only [beq_iff_eq] at h2
        subst h2
        simp [escapeChar, parseStringBody, unescape?, ih]
      · by_cases h3 : c == '\x08'
        · simp only [beq_iff_eq] at h3
          subst h3
          simp [escapeChar, parseStringBody, unescape?, ih]
        · by_cases h4 : c == '\t'
          · simp only [beq_iff_eq] at h4
            subst h4
            simp [escapeChar, parseStringBody, unescape?, ih]
          · by_cases h5 : c == '\n'
            · simp only [beq_iff_eq] at h5
              subst h5
              simp [escapeChar, parseStringBody, unescape?, ih]
            · by_cases h6 : c == '\x0c'
              · simp only [beq_iff_eq] at h6
                subst h6
                simp [escapeChar, parseStringBody, unescape?, ih]
              · by_cases h7 : c == '\r'
                · simp only [beq_iff_eq] at h7
                  subst h7
                  simp [escapeChar, parseStringBody, unescape?, ih]
                · by_cases h8 : c.toNat < 32
                  · have hd1 : c.toNat / 16 < 16 := by omega
                    have hd2 : c.toNat % 16 < 16 := by omega
                    have h0 : hexVal? '0' = some 0 := by decide
                    have hv : ((0 * 16 + 0) * 16 + c.toNat / 16) * 16 + c.toNat % 16
                        = c.toNat := by omega
                    simp only [escapeChar, h1, h2, h3, h4, h5, h6, h7, if_neg,
                      if_pos h8, Bool.false_eq_true, ite_false, ite_true]
                    simp [parseStringBody, h0, hexVal?_hexDigitChar _ hd1,
                      hexVal?_hexDigitChar _ hd2, hv, Char.ofNat_toNat, ih]
                    rw [show c.toNat / 16 * 16 + c.toNat % 16 = c.toNat from by omega,
                      Char.ofNat_toNat]
                  · simp only [escapeChar, h1, h2, h3, h4, h5, h6, h7, h8,
                      Bool.false_eq_true, ite_false]
                    rw [List.singleton_append, parseStringBody.eq_def]
                    simp [h1, h2, h8, ih]

/-- The first character of a printed number-free value is never whitespace,
a closing bracket or a closing brace. -/
theorem printL_head_spec (j : Json) (h : numFree j = true) :
    ∃ c cs, printL j = c :: cs ∧ isJsonWs c = false ∧
      (c == ']') = false ∧ (c == '\x7d') = false := by
  cases j with
  | null => exact ⟨'n', ['u', 'l', 'l'], by simp [printL, nullChars], by decide, by decide, by decide⟩
  | bool b =>
    cases b with
    | false =>
      exact ⟨'f', ['a', 'l', 's', 'e'], by simp [printL, falseChars], by decide, by decide,
        by decide⟩
    | true =>
      exact ⟨'t', ['r', 'u', 'e'], by simp [printL, trueChars], by decide, by decide,
        by decide⟩
  | num tok => simp [numFree] at h
  | str s =>
    exact ⟨'"', escString s.data ++ ['"'], by simp [printL], by decide, by decide, by decide⟩
  | arr es =>
    cases es with
    | nil => exact ⟨'[', [']'], by simp [printL], by decide, by decide, by decide⟩
    | cons e es =>
      exact ⟨'[', printL e ++ printTailL es, by simp [printL], by decide, by decide, by decide⟩
  | obj ms =>
    cases ms with
    | nil => exact ⟨'\x7b', ['\x7d'], by simp [printL], by decide, by decide, by decide⟩
    | cons m ms =>
      exact ⟨'\x7b', printMemberL m ++ printMTailL ms, by simp [printL], by decide,
        by decide, by decide⟩

/-- Leading whitespace removal leaves a list whose head is not whitespace
unchanged. -/
theorem skipWs_cons_not_ws (c : Char) (l : List Char) (h : isJsonWs c = false) :
    skipWs (c :: l) = c :: l := by
  rw [skipWs, h]
  simp

/-- A printed value followed by anything has no leading whitespace. -/
theorem skipWs_printL_append (j : Json) (x : List Char) (h : numFree j = true) :
    skipWs (printL j ++ x) = printL j ++ x := by
  obtain ⟨c, cs, hp, hws, _, _⟩ := printL_head_spec j h
  rw [hp, List.cons_append, skipWs_cons_not_ws _ _ hws]

/-- A printed array tail followed by anything has no leading whitespace. -/
theorem skipWs_printTailL (es : List Json) (x : List Char) :
    skipWs (printTailL es ++ x) = printTailL es ++ x := by
  cases es with
  | nil =>
    rw [show printTailL [] = [']'] from by simp [printTailL], List.singleton_append]
    exact skipWs_cons_not_ws _ _ (by decide)
  | cons e es =>
    rw [show printTailL (e :: es) = ',' :: (printL e ++ printTailL es) from by
      simp [printTailL], List.cons_append]
    exact skipWs_cons_not_ws _ _ (by decide)

/-- A printed object tail followed by anything has no leading whitespace. -/
theorem skipWs_printMTailL (ms : List (String × Json)) (x : List Char) :
    skipWs (printMTailL ms ++ x) = printMTailL ms ++ x := by
  cases ms with
  | nil =>
    rw [show printMTailL [] = ['\x7d'] from by simp [printMTailL], List.singleton_append]
    exact skipWs_cons_not_ws _ _ (by decide)
  | cons m ms =>
    rw [show printMTailL (m :: ms) = ',' :: (printMemberL m ++ printMTailL ms) from by
      simp [printMTailL], List.cons_append]
    exact skipWs_cons_not_ws _ _ (by decide)

/-- A printed object member followed by anything has no leading whitespace. -/
theorem skipWs_printMemberL (m : String × Json) (x : List Char) :
    skipWs (printMemberL m ++ x) = printMemberL m ++ x := by
  obtain ⟨k, v⟩ := m
  rw [show printMemberL (k, v) = '"' :: (escString k.data ++ '"' :: ':' :: printL v) from by
    simp [printMemberL], List.cons_append]
  exact skipWs_cons_not_ws _ _ (by decide)

/-- Evaluation of the parser on an opening bracket whose body starts with a
value: one element, then the array tail. -/
theorem pVal_bracket_step (fuel : Nat) (l r2 r3 : List Char) (j : Json) (js : List Json)
    (hne : ∃ c cs, l = c :: cs ∧ isJsonWs c = false ∧ (c == ']') = false)
    (h1 : pVal fuel l = some (j, r2))
    (h2 : pArrTail fuel (skipWs r2) = some (js, r3)) :
    pVal (fuel + 1) ('[' :: l) = some (.arr (j :: js), r3) := by
  obtain ⟨c, cs, rfl, hws, hcb⟩ := hne
  rw [pVal.eq_def]
  simp [skipWs_cons_not_ws _ _ hws, hcb, h1, h2]

/-- Evaluation of the parser on an opening brace whose body starts with a
member: one member, then the object tail. -/
theorem pVal_brace_step (fuel : Nat) (l r2 r3 : List Char) (m : String × Json)
    (ms : List (String × Json))
    (hne : ∃ c cs, l = c :: cs ∧ isJsonWs c = false ∧ (c == '\x7d') = false)
    (h1 : pMember fuel l = some (m, r2))
    (h2 : pObjTail fuel (skipWs r2) = some (ms, r3)) :
    pVal (fuel + 1) ('\x7b' :: l) = some (.obj (m :: ms), r3) := by
  obtain ⟨c, cs, rfl, hws, hcb⟩ := hne
  rw [pVal.eq_def]
  simp [skipWs_cons_not_ws _ _ hws, hcb, h1, h2]

/-- Core round-trip: a printed number-free value (respectively a printed
array or object tail, or a printed member) parses back exactly, leaving
precisely the appended remainder, whenever the fuel covers the value. -/
theorem parser_rt : ∀ fuel : Nat,
    (∀ j r, numFree j = true → jsize j ≤ fuel →
      pVal fuel (printL j ++ r) = some (j, r)) ∧
    (∀ es r, numFreeL es = true → jsizeL es + 1 ≤ fuel →
      pArrTail fuel (printTailL es ++ r) = some (es, r)) ∧
    (∀ ms r, numFreeM ms = true → jsizeM ms + 1 ≤ fuel →
      pObjTail fuel (printMTailL ms ++ r) = some (ms, r)) ∧
    (∀ k v r, numFree v = true → jsize v + 1 ≤ fuel →
      pMember fuel (printMemberL (k, v) ++ r) = some ((k, v), r)) := by
  intro fuel
  induction fuel with
  | zero =>
    refine ⟨fun j r _ hs => absurd hs (by have := jsize_pos j; omega),
      fun es r _ hs => absurd hs (by omega),
      fun ms r _ hs => absurd hs (by omega),
      fun k v r _ hs => absurd hs (by have := jsize_pos v; omega)⟩
  | succ fuel ih =>
    obtain ⟨ih1, ih2, ih3, ih4⟩ := ih
    refine ⟨?_, ?_, ?_, ?_⟩
    · intro j r hnf hs
      cases j with
      | null =>
        rw [show printL .null ++ r = 'n' :: 'u' :: 'l' :: 'l' :: r from by
          simp [printL, nullChars]]
        simp [pVal]
      | bool b =>
        cases b with
        | true =>
          rw [show printL (.bool true) ++ r = 't' :: 'r' :: 'u' :: 'e' :: r from by
            simp [printL, trueChars]]
          simp [pVal]
        | false =>
          rw [show printL (.bool false) ++ r = 'f' :: 'a' :: 'l' :: 's' :: 'e' :: r from by
            simp [printL, falseChars]]
          simp [pVal]
      | num tok => simp [numFree] at hnf
      | str s =>
        rw [show printL (.str s) ++ r = '"' :: (escString s.data ++ '"' :: r) from by
          simp [printL]]
        rw [pVal.eq_def]
        simp [parseStringBody_escString, string_mk_data]
      | arr es =>
        cases es with
        | nil =>
          rw [show printL (.arr []) ++ r = '[' :: ']' :: r from by simp [printL]]
          rw [pVal.eq_def]
          simp [skipWs_cons_not_ws _ _ (show isJsonWs ']' = false from by decide)]
        | cons e es =>
          simp only [numFree, numFreeL, Bool.and_eq_true] at hnf
          obtain ⟨hne, hnes⟩ := hnf
          have hsz : jsize e ≤ fuel ∧ jsizeL es + 1 ≤ fuel := by
            simp only [jsize, jsizeL] at hs; omega
          rw [show printL (.arr (e :: es)) ++ r =
              '[' :: (printL e ++ (printTailL es ++ r)) from by simp [printL]]
          refine pVal_bracket_step fuel _ _ _ _ _ ?_
            (ih1 e (printTailL es ++ r) hne hsz.1) ?_
          · obtain ⟨c, cs, hpe, hws, hcb, _⟩ := printL_head_spec e hne
            exact ⟨c, cs ++ (printTailL es ++ r), by rw [hpe, List.cons_append], hws, hcb⟩
          · rw [skipWs_printTailL]
            exact ih2 es r hnes hsz.2
      | obj ms =>
        cases ms with
        | nil =>
          rw [show printL (.obj []) ++ r = '\x7b' :: '\x7d' :: r from by simp [printL]]
          rw [pVal.eq_def]
          simp [skipWs_cons_not_ws _ _ (show isJsonWs '\x7d' = false from by decide)]
        | cons m ms =>
          obtain ⟨k, v⟩ := m
          simp only [numFree, numFreeM, Bool.and_eq_true] at hnf
          obtain ⟨hnv, hnms⟩ := hnf
          have hsz : jsize v + 1 ≤ fuel ∧ jsizeM ms + 1 ≤ fuel := by
            simp only [jsize, jsizeM] at hs; omega
          rw [show printL (.obj ((k, v) :: ms)) ++ r =
              '\x7b' :: (printMemberL (k, v) ++ (printMTailL ms ++ r)) from by simp [printL]]
          refine pVal_brace_step fuel _ _ _ _ _ ?_
            (ih4 k v (printMTailL ms ++ r) hnv hsz.1) ?_
          · exact ⟨'"', escString k.data ++ '"' :: ':' :: printL v ++ (printMTailL ms ++ r),
              by simp [printMemberL], by decide, by decide⟩
          · rw [skipWs_printMTailL]
            exact ih3 ms r hnms hsz.2
    · intro es r hnf hs
      cases es with
      | nil =>
        rw [show printTailL [] ++ r = ']' :: r from by simp [printTailL]]
        simp [pArrTail]
      | cons e es =>
        simp only [numFreeL, Bool.and_eq_true] at hnf
        obtain ⟨hne, hnes⟩ := hnf
        have hsz : jsize e ≤ fuel ∧ jsizeL es + 1 ≤ fuel := by
          simp only [jsizeL] at hs; omega
        rw [show printTailL (e :: es) ++ r =
            ',' :: (printL e ++ (printTailL es ++ r)) from by simp [printTailL]]
        rw [pArrTail.eq_def]
        simp [skipWs_printL_append e _ hne, ih1 e (printTailL es ++ r) hne hsz.1,
          skipWs_printTailL, ih2 es r hnes hsz.2]
    · intro ms r hnf hs
      cases ms with
      | nil =>
        rw [show printMTailL [] ++ r = '\x7d' :: r from by simp [printMTailL]]
        simp [pObjTail]
      | cons m ms =>
        obtain ⟨k, v⟩ := m
        simp only [numFreeM, Bool.and_eq_true] at hnf
        obtain ⟨hnv, hnms⟩ := hnf
        have hsz : jsize v + 1 ≤ fuel ∧ jsizeM ms + 1 ≤ fuel := by
          simp only [jsizeM] at hs; omega
        rw [show printMTailL ((k, v) :: ms) ++ r =
            ',' :: (printMemberL (k, v) ++ (printMTailL ms ++ r)) from by simp [printMTailL]]
        rw [pObjTail.eq_def]
        simp [skipWs_printMemberL, ih4 k v (printMTailL ms ++ r) hnv hsz.1,
          skipWs_printMTailL, ih3 ms r hnms hsz.2]
    · intro k v r hnf hs
      have hsv : jsize v ≤ fuel := by omega
      rw [show printMemberL (k, v) ++ r =
          '"' :: (escString k.data ++ '"' :: ':' :: (printL v ++ r)) from by
        simp [printMemberL]]
      rw [pMember.eq_def]
      simp [parseStringBody_escString, skipWs_cons_not_ws ':' _ (by decide),
        skipWs_printL_append v _ hnf, ih1 v r hnf hsv, string_mk_data]

/-- The fuel a printed value needs is at most its printed length. -/
theorem jsize_le_printL : ∀ n : Nat,
    (∀ j, numFree j = true → jsize j ≤ n → jsize j ≤ (printL j).length) ∧
    (∀ es, numFreeL es = true → jsizeL es + 1 ≤ n →
      jsizeL es + 1 ≤ (printTailL es).length) ∧
    (∀ ms, numFreeM ms = true → jsizeM ms + 1 ≤ n →
      jsizeM ms + 1 ≤ (printMTailL ms).length) := by
  intro n
  induction n with
  | zero =>
    refine ⟨fun j _ hs => absurd hs (by have := jsize_pos j; omega),
      fun es _ hs => absurd hs (by omega),
      fun ms _ hs => absurd hs (by omega)⟩
  | succ n ih =>
    obtain ⟨ih1, ih2, ih3⟩ := ih
    refine ⟨?_, ?_, ?_⟩
    · intro j hnf hs
      cases j with
      | null => simp [jsize, printL, nullChars]
      | bool b => cases b <;> simp [jsize, printL, trueChars, falseChars]
      | num tok => simp [numFree] at hnf
      | str s => simp [jsize, printL]
      | arr es =>
        cases es with
        | nil => simp [jsize, jsizeL, printL]
        | cons e es =>
          simp only [numFree, numFreeL, Bool.and_eq_true] at hnf
          obtain ⟨hne, hnes⟩ := hnf
          simp only [jsize, jsizeL] at hs ⊢
          have h1 : jsize e ≤ (printL e).length := ih1 e hne (by omega)
          have h2 : jsizeL es + 1 ≤ (printTailL es).length := ih2 es hnes (by omega)
          simp only [printL, List.length_cons, List.length_append]
          omega
      | obj ms =>
        cases ms with
        | nil => simp [jsize, jsizeM, printL]
        | cons m ms =>
          obtain ⟨k, v⟩ := m
          simp only [numFree, numFreeM, Bool.and_eq_true] at hnf
          obtain ⟨hnv, hnms⟩ := hnf
          simp only [jsize, jsizeM] at hs ⊢
          have h1 : jsize v ≤ (printL v).length := ih1 v hnv (by omega)
          have h2 : jsizeM ms + 1 ≤ (printMTailL ms).length := ih3 ms hnms (by omega)
          simp only [printL, printMemberL, List.length_cons, List.length_append]
          omega
    · intro es hnf hs
      cases es with
      | nil => simp [jsizeL, printTailL]
      | cons e es =>
        simp only [numFreeL, Bool.and_eq_true] at hnf
        obtain ⟨hne, hnes⟩ := hnf
        simp only [jsizeL] at hs ⊢
        have h1 : jsize e ≤ (printL e).length := ih1 e hne (by omega)
        have h2 : jsizeL es + 1 ≤ (printTailL es).length := ih2 es hnes (by omega)
        simp only [printTailL, List.length_cons, List.length_append]
        omega
    · intro ms hnf hs
      cases ms with
      | nil => simp [jsizeM, printMTailL]
      | cons m ms =>
        obtain ⟨k, v⟩ := m
        simp only [numFreeM, Bool.and_eq_true] at hnf
        obtain ⟨hnv, hnms⟩ := hnf
        simp only [jsizeM] at hs ⊢
        have h1 : jsize v ≤ (printL v).length := ih1 v hnv (by omega)
        have h2 : jsizeM ms + 1 ≤ (printMTailL ms).length := ih3 ms hnms (by omega)
        simp only [printMTailL, printMemberL, List.length_cons, List.length_append]
        omega

/-- The fuel bound at the top level. -/
theorem jsize_le_length (j : Json) (h : numFree j = true) : jsize j ≤ (printL j).length :=
  (jsize_le_printL (jsize j)).1 j h (Nat.le_refl _)

/-- Parsing a printed number-free value recovers it exactly: the model of
the `JSON.parse` / `JSON.stringify` round trip the app relies on. -/
theorem parse_print (j : Json) (h : numFree j = true) :
    parseJson (printJson j) = some j := by
  have hskip : skipWs (printL j) = printL j := by
    have h2 := skipWs_printL_append j [] h
    simpa using h2
  have hp0 : pVal ((printL j).length + 1) (printL j ++ []) = some (j, []) :=
    (parser_rt _).1 j [] h (by have := jsize_le_length j h; omega)
  have hp : pVal ((printL j).length + 1) (printL j) = some (j, []) := by
    simpa using hp0
  show parseJsonL (printL j) = some j
  rw [parseJsonL]
  simp only [hskip, hp]
  simp [skipWs]

/-!
The application data model. `PersonalInfo` is declared in the ProfileDialog
segment of `components/login-dialog.tsx`; `JobApplication` is imported from
`components/job-application-card.tsx`, which is not among the available
sources, so its field inventory is taken from the design document. Every
function below that manipulates them is translated from `App.tsx` itself.
-/

/-- Modelled from the spec: the `JobApplication` interface lives in the
missing `components/job-application-card.tsx`; its fields are those of the
spec's ApplicationRecord (id, company, position, status, location,
appliedDate, notes). `status` stays a plain string — the TS union type of the
four status literals is erased at runtime — and the optional `notes` is kept
as a possibly empty string. -/
structure JobApplication where
  id : String
  company : String
  position : String
  status : String
  location : String
  appliedDate : String
  notes : String
deriving DecidableEq

/-- The `PersonalInfo` interface, from the ProfileDialog segment of
`components/login-dialog.tsx` (line 407): name, email, phone, location,
title, imageUrl. `imageUrl` is declared optional there, but every value the
embedded App.tsx variant stores in it is a string (the initial state, the
defaults, the logout reset and `loadUserData` all write `""` or a data URI),
so it is kept as a string. -/
structure PersonalInfo where
  name : String
  email : String
  phone : String
  location : String
  title : String
  imageUrl : String
deriving DecidableEq

/-- The argument of `handleSaveApplication`: a `JobApplication` without its
`id` (the TS type `Omit<JobApplication, "id">`). -/
structure AppData where
  company : String
  position : String
  status : String
  location : String
  appliedDate : String
  notes : String
deriving DecidableEq

/-- Spreading application data together with an id into a full record, as
`{ ...applicationData, id }` does. -/
def mkApp (d : AppData) (id : String) : JobApplication :=
  { id := id, company := d.company, position := d.position, status := d.status,
    location := d.location, appliedDate := d.appliedDate, notes := d.notes }

/-- Decimal digit character. -/
def digitChar (n : Nat) : Char := Char.ofNat (48 + n)

/-- Decimal digits of a number, most significant first; the fuel only bounds
recursion depth and `natToString` always supplies enough. -/
def natToDigitsAux : Nat → Nat → List Char
  | 0, _ => []
  | fuel + 1, n =>
    if n < 10 then [digitChar n]
    else natToDigitsAux fuel (n / 10) ++ [digitChar (n % 10)]

/-- `Date.now().toString()`: base-10 rendering of the clock value. -/
def natToString (n : Nat) : String := String.mk (natToDigitsAux (n + 1) n)

/-- Numeric value of a digit string, used to invert `natToString`. -/
def digitsVal (l : List Char) : Nat :=
  l.foldl (fun acc c => 10 * acc + (c.toNat - 48)) 0

/-- Digit characters decode to their value. -/
theorem digitChar_toNat : ∀ n < 10, (digitChar n).toNat = 48 + n := by decide

/-- `digitsVal` over an appended final digit. -/
theorem digitsVal_append_digit (l : List Char) (c : Char) :
    digitsVal (l ++ [c]) = 10 * digitsVal l + (c.toNat - 48) := by
  simp [digitsVal, List.foldl_append]

/-- Rendering then evaluating a number below the fuel bound is the
identity. -/
theorem digitsVal_natToDigitsAux : ∀ fuel n, n < 10 ^ fuel →
    digitsVal (natToDigitsAux fuel n) = n := by
  intro fuel
  induction fuel with
  | zero =>
    intro n hn
    have : n = 0 := by simpa using hn
    simp [this, natToDigitsAux, digitsVal]
  | succ fuel ih =>
    intro n hn
    by_cases h : n < 10
    · simp [natToDigitsAux, h, digitsVal, digitChar_toNat n h]
    · have hd : n / 10 < 10 ^ fuel := by
        rw [Nat.div_lt_iff_lt_mul (by norm_num)]
        calc n < 10 ^ (fuel + 1) := hn
        _ = 10 ^ fuel * 10 := by rw [Nat.pow_succ]
      rw [natToDigitsAux, if_neg h, digitsVal_append_digit, ih _ hd,
        digitChar_toNat (n % 10) (Nat.mod_lt n (by norm_num))]
      omega

/-- `natToString` is injective: distinct clock values render to distinct
id strings. -/
theorem natToString_inj (m n : Nat) (h : natToString m = natToString n) : m = n := by
  have hm : m < 10 ^ (m + 1) :=
    lt_of_lt_of_le (Nat.lt_pow_self (by norm_num) m)
      (Nat.pow_le_pow_right (by norm_num) (Nat.le_succ m))
  have hn : n < 10 ^ (n + 1) :=
    lt_of_lt_of_le (Nat.lt_pow_self (by norm_num) n)
      (Nat.pow_le_pow_right (by norm_num) (Nat.le_succ n))
  have hdata : natToDigitsAux (m + 1) m = natToDigitsAux (n + 1) n :=
    congrArg String.data h
  calc m = digitsVal (natToDigitsAux (m + 1) m) := (digitsVal_natToDigitsAux _ m hm).symm
  _ = digitsVal (natToDigitsAux (n + 1) n) := by rw [hdata]
  _ = n := digitsVal_natToDigitsAux _ n hn

/-!
The browser's string key-value store (`localStorage`), as the app uses it:
`getItem`, `setItem` (overwrite), `removeItem`. Order of entries is
irrelevant to lookups.
-/

/-- The durable key-value store: an association list of string keys and
string values. -/
abbrev Storage := List (String × String)

/-- `localStorage.getItem`. -/
def lsGet (st : Storage) (k : String) : Option String :=
  (st.find? (fun p => p.1 == k)).map (fun p => p.2)

/-- `localStorage.removeItem`. -/
def lsRemove (st : Storage) (k : String) : Storage :=
  st.filter (fun p => p.1 != k)

/-- `localStorage.setItem`: overwrite any previous binding of the key. -/
def lsSet (st : Storage) (k v : String) : Storage :=
  (k, v) :: lsRemove st k

/-- Reading the key just written. -/
theorem lsGet_lsSet_self (st : Storage) (k v : String) :
    lsGet (lsSet st k v) k = some v := by
  simp [lsGet, lsSet, List.find?]

/-- A removed key reads as absent. -/
theorem lsGet_lsRemove_self (st : Storage) (k : String) :
    lsGet (lsRemove st k) k = none := by
  have h : (lsRemove st k).find? (fun p => p.1 == k) = none := by
    rw [List.find?_eq_none]
    intro p hp
    have h2 : (p.1 != k) = true :=
      (List.mem_filter.mp (show p ∈ st.filter (fun q => q.1 != k) from hp)).2
    simp only [bne_iff_ne, ne_eq] at h2
    simp [h2]
  simp [lsGet, h]

/-- Removing one key leaves other keys readable unchanged. -/
theorem lsGet_lsRemove_ne (st : Storage) (k k2 : String) (h : k ≠ k2) :
    lsGet (lsRemove st k2) k = lsGet st k := by
  induction st with
  | nil => rfl
  | cons p st ih =>
    by_cases hp : p.1 == k2
    · have hfc : lsRemove (p :: st) k2 = lsRemove st k2 := by
        simp [lsRemove, List.filter_cons, bne, hp]
      have hk : (p.1 == k) = false := by
        simp only [beq_iff_eq] at hp
        simp only [beq_eq_false_iff_ne, ne_eq, hp]
        exact fun he => h he.symm
      rw [hfc, ih]
      simp [lsGet, List.find?_cons, hk]
    · have hfc : lsRemove (p :: st) k2 = p :: lsRemove st k2 := by
        simp [lsRemove, List.filter_cons, bne, hp]
      rw [hfc]
      by_cases hk : p.1 == k
      · simp [lsGet, List.find?_cons, hk]
      · have hk2 : (p.1 == k) = false := by simpa using hk
        simp only [lsGet] at ih
        simp [lsGet, List.find?_cons, hk2, ih]

/-- Removing a key twice is the same as removing it once. -/
theorem lsRemove_idem (st : Storage) (k : String) :
    lsRemove (lsRemove st k) k = lsRemove st k := by
  simp only [lsRemove, List.filter_filter, Bool.and_self]

/-- Removals of different keys commute. -/
theorem lsRemove_comm (st : Storage) (k1 k2 : String) :
    lsRemove (lsRemove st k1) k2 = lsRemove (lsRemove st k2) k1 := by
  simp only [lsRemove, List.filter_filter]
  congr 1
  funext p
  exact Bool.and_comm _ _

/-!
The persisted snapshot (`UserData` in App.tsx): `{ personalInfo,
applications }`, serialized with `JSON.stringify` and read back field by
field after `JSON.parse`.
-/

/-- The JSON object `JSON.stringify` builds for a `PersonalInfo`. -/
def personalInfoToJson (p : PersonalInfo) : Json :=
  .obj [("name", .str p.name), ("email", .str p.email), ("phone", .str p.phone),
    ("location", .str p.location), ("title", .str p.title), ("imageUrl", .str p.imageUrl)]

/-- The JSON object `JSON.stringify` builds for a `JobApplication`. -/
def appToJson (a : JobApplication) : Json :=
  .obj [("id", .str a.id), ("company", .str a.company), ("position", .str a.position),
    ("status", .str a.status), ("location", .str a.location),
    ("appliedDate", .str a.appliedDate), ("notes", .str a.notes)]

/-- The JSON object for a whole `UserData` snapshot, fields in the insertion
order of the literal in `saveUserData`. -/
def encodeUserData (info : PersonalInfo) (apps : List JobApplication) : Json :=
  .obj [("personalInfo", personalInfoToJson info),
    ("applications", .arr (apps.map appToJson))]

/-- Property access on a parsed JSON value (`userData.personalInfo` etc.):
a field of an object, `undefined` (`none`) otherwise. -/
def jField (j : Json) (k : String) : Option Json :=
  match j with
  | .obj fs => (fs.find? (fun p => p.1 == k)).map (fun p => p.2)
  | _ => none

/-- Reading a field as a string. -/
def jStr : Option Json → Option String
  | some (.str s) => some s
  | _ => none

/-- Typed reading of a parsed `personalInfo` object. `none` stands for the
untyped values the JS code would assign when the parsed shape does not match
the interface. -/
def decodePersonalInfo (j : Json) : Option PersonalInfo :=
  match jStr (jField j "name"), jStr (jField j "email"), jStr (jField j "phone"),
      jStr (jField j "location"), jStr (jField j "title"), jStr (jField j "imageUrl") with
  | some n, some e, some ph, some l, some t, some iu =>
    some { name := n, email := e, phone := ph, location := l, title := t, imageUrl := iu }
  | _, _, _, _, _, _ => none

/-- Typed reading of one parsed application record. -/
def decodeApp (j : Json) : Option JobApplication :=
  match jStr (jField j "id"), jStr (jField j "company"), jStr (jField j "position"),
      jStr (jField j "status"), jStr (jField j "location"), jStr (jField j "appliedDate"),
      jStr (jField j "notes") with
  | some i, some c, some po, some s, some l, some ad, some n =>
    some ⟨i, c, po, s, l, ad, n⟩
  | _, _, _, _, _, _, _ => none

/-- Typed reading of a parsed list of application records. -/
def decodeAppList : List Json → Option (List JobApplication)
  | [] => some []
  | j :: js =>
    match decodeApp j, decodeAppList js with
    | some a, some rest => some (a :: rest)
    | _, _ => none

/-- Typed reading of the parsed `applications` array. -/
def decodeApps (j : Json) : Option (List JobApplication) :=
  match j with
  | .arr es => decodeAppList es
  | _ => none

/-- Typed reading of a whole parsed snapshot. -/
def decodeUserData (j : Json) : Option (PersonalInfo × List JobApplication) :=
  match jField j "personalInfo", jField j "applications" with
  | some pj, some aj =>
    match decodePersonalInfo pj, decodeApps aj with
    | some info, some apps => some (info, apps)
    | _, _ => none
  | _, _ => none

/-- Decoding an encoded application record is the identity. -/
theorem decodeApp_appToJson (a : JobApplication) : decodeApp (appToJson a) = some a := rfl

/-- Decoding an encoded record list is the identity. -/
theorem decodeAppList_map (apps : List JobApplication) :
    decodeAppList (apps.map appToJson) = some apps := by
  induction apps with
  | nil => rfl
  | cons a rest ih => simp [List.map, decodeAppList, decodeApp_appToJson, ih]

/-- Decoding an encoded `PersonalInfo` is the identity. -/
theorem decodePersonalInfo_encode (p : PersonalInfo) :
    decodePersonalInfo (personalInfoToJson p) = some p := rfl

/-- Decoding an encoded snapshot recovers it exactly. -/
theorem decode_encode (info : PersonalInfo) (apps : List JobApplication) :
    decodeUserData (encodeUserData info apps) = some (info, apps) := by
  show (match decodePersonalInfo (personalInfoToJson info),
      decodeAppList (apps.map appToJson) with
    | some i, some l => some (i, l)
    | _, _ => none) = some (info, apps)
  rw [decodePersonalInfo_encode, decodeAppList_map]

/-- Encoded snapshots contain no number token. -/
theorem numFree_encode (info : PersonalInfo) (apps : List JobApplication) :
    numFree (encodeUserData info apps) = true := by
  have h : ∀ l : List JobApplication, numFreeL (l.map appToJson) = true := by
    intro l
    induction l with
    | nil => simp [numFreeL]
    | cons a rest ih => simp [List.map, numFreeL, numFree, appToJson, numFreeM, ih]
  simp [encodeUserData, numFree, numFreeM, numFreeL, personalInfoToJson, h apps]

/-!
The Local Record Store operations of App.tsx: `loadUserData` (the later
variant, with the parse guard) and `saveUserData`.
-/

/-- The key `userData_<identity>`. -/
def userDataKey (email : String) : String := "userData_" ++ email

/-- The seeded default name: the part of the email before the first `@`, or
`"User"` when that part is empty (`userEmail.split("@")[0] || "User"`). -/
def defaultName (email : String) : String :=
  match email.splitOn "@" with
  | p :: _ => if p == "" then "User" else p
  | [] => "User"

/-- The seeded default `PersonalInfo` for a fresh or repaired identity. -/
def defaultInfo (email : String) : PersonalInfo :=
  { name := defaultName email, email := email, phone := "", location := "",
    title := "Job Seeker", imageUrl := "" }

/-- Outcome of `loadUserData`: either the pair of typed state assignments, or
the parsed-but-ill-shaped JSON the JS code would assign untyped (no claim
exercises the latter; it is recorded for faithfulness). -/
inductive LoadResult where
  | typed (info : PersonalInfo) (apps : List JobApplication)
  | illTyped (j : Json)

/-- `loadUserData` (later variant, lines 654-703): read `userData_<email>`;
absent key seeds defaults; a string `JSON.parse` rejects removes the corrupt
key and seeds defaults; parsed values are assigned. Returns the storage after
the call and the state assignment. -/
def loadUserData (email : String) (st : Storage) : Storage × LoadResult :=
  match lsGet st (userDataKey email) with
  | none => (st, .typed (defaultInfo email) [])
  | some s =>
    match parseJson s with
    | none => (lsRemove st (userDataKey email), .typed (defaultInfo email) [])
    | some j =>
      match decodeUserData j with
      | some (info, apps) => (st, .typed info apps)
      | none => (st, .illTyped j)

/-- `saveUserData`: overwrite `userData_<email>` with the serialized current
snapshot. -/
def saveUserData (email : String) (info : PersonalInfo) (apps : List JobApplication)
    (st : Storage) : Storage :=
  lsSet st (userDataKey email) (printJson (encodeUserData info apps))

/-!
Session manager: the component state App.tsx keeps plus the durable store,
and the handlers `handleLogin`, `handleLogout` and the auth listener.
-/

/-- The `PersonalInfo` `handleLogout` resets to (hard-coded sample values in
the source). -/
def logoutResetInfo : PersonalInfo :=
  { name := "John Doe", email := "john.doe@email.com", phone := "+1 (555) 123-4567",
    location := "San Francisco, CA", title := "Software Engineer", imageUrl := "" }

/-- The component state of App.tsx relevant to the session and list claims,
together with the durable store. `dynamicLoad` records the one case in which
`loadUserData` assigns parsed values that do not fit the interfaces (the JS
code assigns them untyped; no claim reaches this case). -/
structure AppState where
  currentUser : Option String
  accessToken : Option String
  activeTab : String
  personalInfo : PersonalInfo
  applications : List JobApplication
  storage : Storage
  dynamicLoad : Option Json

/-- Applying the assignments of a `loadUserData` call to the component
state. -/
def applyLoadResult (st : AppState) (r : Storage × LoadResult) : AppState :=
  match r.2 with
  | .typed info apps =>
    { st with
      storage := r.1
      personalInfo := info
      applications := apps
      dynamicLoad := none }
  | .illTyped j => { st with storage := r.1, dynamicLoad := some j }

/-- `handleLogin`: set the session pair, persist the two durable keys, then
load the per-identity snapshot. -/
def handleLogin (email token : String) (st : AppState) : AppState :=
  applyLoadResult
    { st with
      currentUser := some email
      accessToken := some token
      storage := lsSet (lsSet st.storage "currentUser" email) "accessToken" token }
    (loadUserData email (lsSet (lsSet st.storage "currentUser" email) "accessToken" token))

/-- `handleLogout` as a state transformation: after the (awaited) external
sign-out, clear the session pair, remove the two durable keys, reset the
list and the profile, return to the home tab. -/
def handleLogout (st : AppState) : AppState :=
  { st with
    currentUser := none
    accessToken := none
    storage := lsRemove (lsRemove st.storage "currentUser") "accessToken"
    applications := []
    personalInfo := logoutResetInfo
    activeTab := "home" }

/-- The individual effects `handleLogout` performs, in the order the source
executes them: the external `supabase.auth.signOut()` call is issued and
awaited first (its failure only logged), then the local assignments and key
removals run. -/
inductive LogoutStep where
  | supabaseSignOut
  | setCurrentUser (v : Option String)
  | setAccessToken (v : Option String)
  | removeItem (key : String)
  | setApplications (apps : List JobApplication)
  | setPersonalInfo (info : PersonalInfo)
  | setActiveTab (tab : String)
deriving DecidableEq

/-- The effect trace of `handleLogout` (lines 750-777), in source order. -/
def handleLogoutEffects : List LogoutStep :=
  [.supabaseSignOut, .setCurrentUser none, .setAccessToken none,
   .removeItem "currentUser", .removeItem "accessToken",
   .setApplications [], .setPersonalInfo logoutResetInfo, .setActiveTab "home"]

/-- The `user` object of an auth session event payload. -/
structure AuthUser where
  email : Option String

/-- The session payload of an auth event. -/
structure AuthSession where
  user : Option AuthUser
  accessToken : String

/-- Events of the identity provider's auth stream that the listener
distinguishes. -/
inductive AuthEvent where
  | signedIn (session : Option AuthSession)
  | signedOut
  | tokenRefreshed

/-- The auth listener of the later App.tsx variant (lines 574-621): on
`SIGNED_IN` with a session and user, log in only when no user is currently
set; on `SIGNED_OUT`, log out; `TOKEN_REFRESHED` only logs. -/
def onAuthStateChange (ev : AuthEvent) (st : AppState) : AppState :=
  match ev with
  | .signedIn (some s) =>
    match s.user with
    | some u =>
      match st.currentUser with
      | none => handleLogin (u.email.getD "") s.accessToken st
      | some _ => st
    | none => st
  | .signedIn none => st
  | .signedOut => handleLogout st
  | .tokenRefreshed => st

/-!
Application list model and notification dispatcher.
-/

/-- The kinds of change notifications. -/
inductive NotifType where
  | added
  | updated
  | deleted
deriving DecidableEq

/-- One outbound notification request: bearer token and payload. -/
structure OutboundCall where
  bearer : String
  notifType : NotifType
  application : JobApplication
deriving DecidableEq

/-- `sendEmailNotification`: with no access token, return without any
outbound call; otherwise issue exactly one request carrying the token and
the payload. The returned list is the calls issued. -/
def sendEmailNotification (accessToken : Option String) (t : NotifType)
    (a : JobApplication) : List OutboundCall :=
  match accessToken with
  | none => []
  | some tok => [{ bearer := tok, notifType := t, application := a }]

/-- What the notification endpoint or transport can answer: a 2xx response
with a `success` flag, a non-2xx response, or a thrown network error. -/
inductive NotifResponse where
  | ok (success : Bool) (message : Option String) (error : Option String)
  | httpError (message : Option String) (error : Option String)
  | networkFailure
deriving DecidableEq

/-- The log line `sendEmailNotification` emits for a response; the response
is used for nothing else. -/
def notifLogLine (r : NotifResponse) : String :=
  match r with
  | .ok true _ _ => "Email notification sent successfully"
  | .ok false m e => "Email notification not sent: " ++ ((m.orElse fun _ => e).getD "")
  | .httpError m e => "Email notification not sent: " ++ ((m.orElse fun _ => e).getD "")
  | .networkFailure => "Failed to send email notification"

/-- `handleSaveApplication` (lines 779-798): with an application being
edited, replace the record bearing its id in place and request an `updated`
notification; otherwise build a record with the fresh clock-derived id,
prepend it, and request an `added` notification. Returns the new list and
the notification requests. -/
def handleSaveApplication (editing : Option JobApplication) (d : AppData) (now : Nat)
    (apps : List JobApplication) : List JobApplication × List (NotifType × JobApplication) :=
  match editing with
  | some e =>
    (apps.map (fun a => if a.id == e.id then mkApp d e.id else a),
     [(.updated, mkApp d e.id)])
  | none =>
    (mkApp d (natToString now) :: apps, [(.added, mkApp d (natToString now))])

/-- `handleDeleteApplication` (lines 805-811): drop the records bearing the
id; request a `deleted` notification only when a record with the id was
found. -/
def handleDeleteApplication (id : String) (apps : List JobApplication) :
    List JobApplication × List (NotifType × JobApplication) :=
  (apps.filter (fun a => a.id != id),
   match apps.find? (fun a => a.id == id) with
   | some a => [(.deleted, a)]
   | none => [])

/-- `getStatusCount` (lines 817-819): linear count of records with the
status. -/
def getStatusCount (status : String) (apps : List JobApplication) : Nat :=
  (apps.filter (fun a => a.status == status)).length

/-- A list mutation as the UI triggers it. -/
inductive Mutation where
  | save (editing : Option JobApplication) (d : AppData) (now : Nat)
  | delete (id : String)

/-- The list change and notification requests of one mutation. -/
def mutationStep (m : Mutation) (apps : List JobApplication) :
    List JobApplication × List (NotifType × JobApplication) :=
  match m with
  | .save e d now => handleSaveApplication e d now apps
  | .delete i => handleDeleteApplication i apps

/-- The outbound calls a list of notification requests produces. -/
def notifCalls (tok : Option String) :
    List (NotifType × JobApplication) → List OutboundCall
  | [] => []
  | (t, a) :: rest => sendEmailNotification tok t a ++ notifCalls tok rest

/-- One mutation together with its fire-and-forget notification: the new
list, the outbound calls, and the log lines produced once the response
arrives. The response is an input, so that dependence on it is visible: the
list component never mentions it. -/
def runMutation (tok : Option String) (resp : NotifResponse) (m : Mutation)
    (apps : List JobApplication) : List JobApplication × List OutboundCall × List String :=
  ((mutationStep m apps).1, notifCalls tok (mutationStep m apps).2,
   (notifCalls tok (mutationStep m apps).2).map (fun _ => notifLogLine resp))

/-- Without a token there is never an outbound call. -/
theorem notifCalls_none (ns : List (NotifType × JobApplication)) :
    notifCalls none ns = [] := by
  induction ns with
  | nil => rfl
  | cons p rest ih =>
    obtain ⟨t, a⟩ := p
    simp [notifCalls, sendEmailNotification, ih]

/-!
Operation sequences over the application list, for the id-uniqueness
invariant.
-/

/-- One user operation on the list: add (save with nothing being edited, at
a clock value), update (save while editing a record), or delete. -/
inductive Op where
  | add (d : AppData) (now : Nat)
  | update (editing : JobApplication) (d : AppData) (now : Nat)
  | remove (id : String)

/-- The list after one operation. -/
def applyOp (apps : List JobApplication) : Op → List JobApplication
  | .add d now => (handleSaveApplication none d now apps).1
  | .update e d now => (handleSaveApplication (some e) d now apps).1
  | .remove i => (handleDeleteApplication i apps).1

/-- The list after a sequence of operations from the empty list. -/
def runOps (ops : List Op) : List JobApplication := ops.foldl applyOp []

/-- The clock values observed by the adds of a sequence, in order. -/
def addTimes : List Op → List Nat
  | [] => []
  | .add _ now :: ops => now :: addTimes ops
  | .update _ _ _ :: ops => addTimes ops
  | .remove _ :: ops => addTimes ops

/-- A sample record payload for concrete witnesses and counterexamples, with
the scenario values of the design document. -/
def sampleData : AppData :=
  { company := "Acme", position := "Engineer", status := "applied",
    location := "Remote", appliedDate := "2024-01-05", notes := "" }

/-- C2: for every identity and stored string at `userData_<identity>` that is
absent or that `JSON.parse` rejects, `loadUserData` returns normally (it is a
total function into a state assignment): an absent key leaves storage
untouched and seeds the default state; a rejected string removes the corrupt
key and seeds the default state (name from the local part of the email or
"User", the email itself, title "Job Seeker", empty list). -/
theorem claim_C2 (email : String) (st : Storage) :
    (lsGet st (userDataKey email) = none →
      loadUserData email st = (st, .typed (defaultInfo email) [])) ∧
    (∀ s, lsGet st (userDataKey email) = some s → parseJson s = none →
      loadUserData email st =
        (lsRemove st (userDataKey email), .typed (defaultInfo email) [])) := by
  constructor
  · intro h
    simp [loadUserData, h]
  · intro s hs hp
    simp [loadUserData, hs, hp]

/-- Witness for C2 at a concrete corrupt store: the stored string starts an
object but never closes it, so parsing fails, the key is removed and the
seeded default state is assigned. -/
theorem claim_C2_witness :
    lsGet [(userDataKey "a@x.com", "\x7boops")] (userDataKey "a@x.com") =
      some "\x7boops" ∧
    parseJson "\x7boops" = none ∧
    loadUserData "a@x.com" [(userDataKey "a@x.com", "\x7boops")] =
      ([], .typed (defaultInfo "a@x.com") []) :=
  ⟨rfl, rfl,
    (claim_C2 "a@x.com" [(userDataKey "a@x.com", "\x7boops")]).2 "\x7boops" rfl rfl⟩

/-- C5: for every identity and snapshot, `saveUserData` followed by
`loadUserData` for the same identity yields exactly the saved snapshot (and
leaves the store as the save wrote it). -/
theorem claim_C5 (email : String) (info : PersonalInfo) (apps : List JobApplication)
    (st : Storage) :
    loadUserData email (saveUserData email info apps st) =
      (saveUserData email info apps st, .typed info apps) := by
  have h1 : lsGet (saveUserData email info apps st) (userDataKey email) =
      some (printJson (encodeUserData info apps)) :=
    lsGet_lsSet_self st (userDataKey email) (printJson (encodeUserData info apps))
  have h2 : parseJson (printJson (encodeUserData info apps)) =
      some (encodeUserData info apps) := parse_print _ (numFree_encode info apps)
  simp [loadUserData, h1, h2, decode_encode]

/-- C7 (amended): provided the decimal string of the clock value is not
already an id in the list, add assigns that string as a fresh id and the
result is the fully-formed new record prepended to the unchanged list. -/
theorem claim_C7 (d : AppData) (now : Nat) (apps : List JobApplication)
    (h : natToString now ∉ apps.map (fun a => a.id)) :
    (handleSaveApplication none d now apps).1 = mkApp d (natToString now) :: apps ∧
    (mkApp d (natToString now)).id ∉ apps.map (fun a => a.id) :=
  ⟨rfl, h⟩

/-- Witness for C7: adding at clock value 7 over a list holding id "5". -/
theorem claim_C7_witness :
    (natToString 7 ∉ [mkApp sampleData "5"].map (fun a => a.id)) ∧
    ((handleSaveApplication none sampleData 7 [mkApp sampleData "5"]).1 =
        mkApp sampleData (natToString 7) :: [mkApp sampleData "5"] ∧
      (mkApp sampleData (natToString 7)).id ∉
        [mkApp sampleData "5"].map (fun a => a.id)) :=
  ⟨by decide, claim_C7 sampleData 7 [mkApp sampleData "5"] (by decide)⟩

/-- Counterexample to C7 as stated: when the clock value's decimal string
already occurs as an id (a record added in the same millisecond), the id
assigned by add is not fresh — the resulting list carries the id twice. -/
theorem claim_C7_counterexample :
    (mkApp sampleData (natToString 0)).id ∈
      [mkApp sampleData "0"].map (fun a => a.id) ∧
    (handleSaveApplication none sampleData 0 [mkApp sampleData "0"]).1.map
      (fun a => a.id) = ["0", "0"] := by
  exact ⟨by decide, by decide⟩

/-- C9: a mutation with no session token issues no outbound notification
call at all, and whatever the notification response is — success, a non-2xx
answer, or a thrown network failure — the resulting application list is the
same: the response reaches only the log lines. -/
theorem claim_C9 :
    (∀ t a, sendEmailNotification none t a = []) ∧
    (∀ tok m apps r1 r2,
      (runMutation tok r1 m apps).1 = (runMutation tok r2 m apps).1) ∧
    (∀ m apps r, (runMutation none r m apps).2.1 = []) := by
  refine ⟨fun t a => rfl, fun tok m apps r1 r2 => rfl, fun m apps r => ?_⟩
  simp [runMutation, notifCalls_none]

/-- C10: deleting an id that no record bears leaves the list exactly as it
was and requests no notification. -/
theorem claim_C10 (id : String) (apps : List JobApplication)
    (h : id ∉ apps.map (fun a => a.id)) :
    handleDeleteApplication id apps = (apps, []) := by
  have hfil : apps.filter (fun a => a.id != id) = apps := by
    rw [List.filter_eq_self]
    intro a ha
    simp only [bne_iff_ne, ne_eq]
    intro he
    exact h (he ▸ List.mem_map_of_mem (fun a => a.id) ha)
  have hfind : apps.find? (fun a => a.id == id) = none := by
    rw [List.find?_eq_none]
    intro a ha
    simp only [beq_iff_eq]
    intro he
    exact h (he ▸ List.mem_map_of_mem (fun a => a.id) ha)
  simp [handleDeleteApplication, hfil, hfind]

/-- Witness for C10: deleting id "2" from a one-record list holding id
"1". -/
theorem claim_C10_witness :
    ("2" ∉ [mkApp sampleData "1"].map (fun a => a.id)) ∧
    handleDeleteApplication "2" [mkApp sampleData "1"] =
      ([mkApp sampleData "1"], []) :=
  ⟨by decide, claim_C10 "2" [mkApp sampleData "1"] (by decide)⟩

/-- C4: a `signed_in` event with a session and a non-null user arriving
while a session is already active does not trigger login: the whole state,
including the stored bearer token, is unchanged. -/
theorem claim_C4 (st : AppState) (s : AuthSession) (u : AuthUser) (e : String)
    (hs : s.user = some u) (hc : st.currentUser = some e) :
    onAuthStateChange (.signedIn (some s)) st = st := by
  simp [onAuthStateChange, hs, hc]

/-- Witness for C4: a redundant `signed_in` for an already signed-in user
with a different token leaves the original token in place. -/
theorem claim_C4_witness :
    onAuthStateChange
      (.signedIn (some { user := some { email := some "a@x.com" }, accessToken := "tok2" }))
      { currentUser := some "a@x.com", accessToken := some "tok1", activeTab := "home",
        personalInfo := defaultInfo "a@x.com", applications := [], storage := [],
        dynamicLoad := none } =
      { currentUser := some "a@x.com", accessToken := some "tok1", activeTab := "home",
        personalInfo := defaultInfo "a@x.com", applications := [], storage := [],
        dynamicLoad := none } :=
  claim_C4 _ _ { email := some "a@x.com" } "a@x.com" rfl rfl

/-- C8: `handleLogout` run twice leaves the same observable local state as
one run — session pair cleared, both durable keys absent, list empty,
profile reset — because the second run maps the logged-out state to
itself. -/
theorem claim_C8 (st : AppState) :
    handleLogout (handleLogout st) = handleLogout st ∧
    (handleLogout (handleLogout st)).currentUser = none ∧
    (handleLogout (handleLogout st)).accessToken = none ∧
    lsGet (handleLogout (handleLogout st)).storage "currentUser" = none ∧
    lsGet (handleLogout (handleLogout st)).storage "accessToken" = none ∧
    (handleLogout (handleLogout st)).applications = [] ∧
    (handleLogout (handleLogout st)).personalInfo = logoutResetInfo := by
  have hst : lsRemove (lsRemove (lsRemove (lsRemove st.storage "currentUser")
        "accessToken") "currentUser") "accessToken" =
      lsRemove (lsRemove st.storage "currentUser") "accessToken" := by
    rw [lsRemove_comm (lsRemove st.storage "currentUser") "accessToken" "currentUser"]
    rw [lsRemove_idem st.storage "currentUser"]
    rw [lsRemove_idem (lsRemove st.storage "currentUser") "accessToken"]
  refine ⟨?_, rfl, rfl, ?_, ?_, rfl, rfl⟩
  · simp [handleLogout, hst]
  · rw [show (handleLogout (handleLogout st)).storage =
        lsRemove (lsRemove (handleLogout st).storage "currentUser") "accessToken" from rfl]
    rw [lsGet_lsRemove_ne _ "currentUser" "accessToken" (by decide)]
    exact lsGet_lsRemove_self _ "currentUser"
  · exact lsGet_lsRemove_self _ "accessToken"

/-- Counterexample to C3 as stated: in the effect trace of `handleLogout`
the external sign-out is the very first step, so the removal of the durable
`currentUser` key does not precede it. -/
theorem claim_C3_counterexample :
    handleLogoutEffects.findIdx (· == LogoutStep.supabaseSignOut) = 0 ∧
    ¬ (handleLogoutEffects.findIdx (· == LogoutStep.removeItem "currentUser") <
       handleLogoutEffects.findIdx (· == LogoutStep.supabaseSignOut)) := by
  exact ⟨by decide, by decide⟩

/-- C3 (amended): `handleLogout` issues the external sign-out request first
and awaits it; the clearing of the local session state and the removal of
the two durable keys all occur, strictly after it, in the effect trace. -/
theorem claim_C3 :
    handleLogoutEffects.findIdx (· == LogoutStep.supabaseSignOut) <
      handleLogoutEffects.findIdx (· == LogoutStep.setCurrentUser none) ∧
    handleLogoutEffects.findIdx (· == LogoutStep.supabaseSignOut) <
      handleLogoutEffects.findIdx (· == LogoutStep.setAccessToken none) ∧
    handleLogoutEffects.findIdx (· == LogoutStep.supabaseSignOut) <
      handleLogoutEffects.findIdx (· == LogoutStep.removeItem "currentUser") ∧
    handleLogoutEffects.findIdx (· == LogoutStep.supabaseSignOut) <
      handleLogoutEffects.findIdx (· == LogoutStep.removeItem "accessToken") ∧
    LogoutStep.supabaseSignOut ∈ handleLogoutEffects ∧
    LogoutStep.setCurrentUser none ∈ handleLogoutEffects ∧
    LogoutStep.setAccessToken none ∈ handleLogoutEffects ∧
    LogoutStep.removeItem "currentUser" ∈ handleLogoutEffects ∧
    LogoutStep.removeItem "accessToken" ∈ handleLogoutEffects := by
  decide

/-- C6 (amended): adding a record makes the count of its status one greater;
and for every id that exactly one record of the list bears, deleting that id
makes the count of that record's status one less. -/
theorem claim_C6 :
    (∀ d now apps, getStatusCount d.status (handleSaveApplication none d now apps).1 =
      getStatusCount d.status apps + 1) ∧
    (∀ id apps r, apps.find? (fun a => a.id == id) = some r →
      apps.countP (fun a => a.id == id) = 1 →
      getStatusCount r.status (handleDeleteApplication id apps).1 + 1 =
        getStatusCount r.status apps) := by
  constructor
  · intro d now apps
    simp [handleSaveApplication, getStatusCount, List.filter_cons, mkApp]
  · intro id apps
    induction apps with
    | nil => intro r hr; simp [List.find?] at hr
    | cons a tl ih =>
      intro r hr hc
      by_cases ha : a.id == id
      · rw [@List.find?_cons_of_pos _ (fun b => b.id == id) a tl ha] at hr
        simp only [Option.some.injEq] at hr
        subst hr
        rw [List.countP_cons_of_pos (fun b => b.id == id) tl ha] at hc
        have hc0 : tl.countP (fun b => b.id == id) = 0 := by omega
        have htl : tl.filter (fun b => b.id != id) = tl := by
          rw [List.filter_eq_self]
          intro b hb
          have hb2 := List.countP_eq_zero.mp hc0 b hb
          simpa [bne] using hb2
        have hfa : (a.id != id) = false := by simpa [bne] using ha
        simp [handleDeleteApplication, List.filter_cons, hfa, htl, getStatusCount]
      · have hfa : (a.id != id) = true := by simpa [bne] using ha
        rw [@List.find?_cons_of_neg _ (fun b => b.id == id) a tl ha] at hr
        rw [List.countP_cons_of_neg (fun b => b.id == id) tl ha] at hc
        have key := ih r hr hc
        simp only [handleDeleteApplication, getStatusCount] at key ⊢
        by_cases hstat : a.status == r.status
        · simp only [List.filter_cons, hfa, hstat, ite_true, List.length_cons]
          omega
        · have hstat2 : (a.status == r.status) = false := by simpa using hstat
          simp only [List.filter_cons, hfa, hstat2, ite_true, Bool.false_eq_true,
            ite_false]
          omega

/-- Witness for C6's delete part at a concrete one-record list. -/
theorem claim_C6_witness :
    [mkApp sampleData "1"].find? (fun a => a.id == "1") = some (mkApp sampleData "1") ∧
    [mkApp sampleData "1"].countP (fun a => a.id == "1") = 1 ∧
    getStatusCount (mkApp sampleData "1").status
        (handleDeleteApplication "1" [mkApp sampleData "1"]).1 + 1 =
      getStatusCount (mkApp sampleData "1").status [mkApp sampleData "1"] :=
  ⟨by decide, by decide,
    claim_C6.2 "1" [mkApp sampleData "1"] (mkApp sampleData "1") (by decide) (by decide)⟩

/-- Counterexample to C6 as stated: when two records bear the deleted id,
deleting it removes both, so the count of the removed records' status drops
by two, not one. -/
theorem claim_C6_counterexample :
    ("1" ∈ [mkApp sampleData "1", mkApp sampleData "1"].map (fun a => a.id)) ∧
    ¬ (getStatusCount "applied"
        (handleDeleteApplication "1" [mkApp sampleData "1", mkApp sampleData "1"]).1 =
       getStatusCount "applied" [mkApp sampleData "1", mkApp sampleData "1"] - 1) := by
  exact ⟨by decide, by decide⟩

/-- An in-place update leaves every record's id unchanged. -/
theorem update_preserves_id (e : JobApplication) (d : AppData) (a : JobApplication) :
    (if a.id == e.id then mkApp d e.id else a).id = a.id := by
  by_cases h : a.id == e.id
  · simp only [beq_iff_eq] at h
    simp [h, mkApp]
  · simp [h]

/-- Invariant carried through an operation sequence: when every id of the
current list renders an already-observed clock value, the ids are distinct,
and the clock values still to be observed by adds exceed all observed ones
and are strictly increasing among themselves, the final ids are distinct. -/
theorem runOps_aux : ∀ (ops : List Op) (apps : List JobApplication) (T : List Nat),
    (∀ a ∈ apps, ∃ t ∈ T, a.id = natToString t) →
    (apps.map (fun a => a.id)).Nodup →
    (∀ t ∈ addTimes ops, ∀ u ∈ T, u < t) →
    (addTimes ops).Pairwise (· < ·) →
    ((ops.foldl applyOp apps).map (fun a => a.id)).Nodup := by
  intro ops
  induction ops with
  | nil =>
    intro apps T _ h2 _ _
    simpa using h2
  | cons op ops ih =>
    intro apps T h1 h2 h3 h4
    cases op with
    | add d now =>
      simp only [addTimes] at h3 h4
      rw [List.foldl_cons]
      refine ih (applyOp apps (.add d now)) (now :: T) ?_ ?_ ?_
        ((List.pairwise_cons.mp h4).2)
      · intro a ha
        simp only [applyOp, handleSaveApplication] at ha
        rcases List.mem_cons.mp ha with h | h
        · exact ⟨now, List.mem_cons_self _ _, by rw [h]; rfl⟩
        · obtain ⟨t, ht, he⟩ := h1 a h
          exact ⟨t, List.mem_cons_of_mem _ ht, he⟩
      · simp only [applyOp, handleSaveApplication, List.map_cons]
        rw [List.nodup_cons]
        refine ⟨?_, h2⟩
        intro hmem
        obtain ⟨a, ha, hid⟩ := List.mem_map.mp hmem
        obtain ⟨t, ht, he⟩ := h1 a ha
        have heq : t = now := natToString_inj t now (by rw [← he, hid]; rfl)
        have hlt : t < now := h3 now (List.mem_cons_self _ _) t ht
        omega
      · intro t ht u hu
        rcases List.mem_cons.mp hu with h | h
        · subst h
          exact (List.pairwise_cons.mp h4).1 t ht
        · exact h3 t (List.mem_cons_of_mem _ ht) u h
    | update e d now =>
      simp only [addTimes] at h3 h4
      rw [List.foldl_cons]
      have hcomp : ((fun a => a.id) ∘
          (fun a : JobApplication => if a.id == e.id then mkApp d e.id else a)) =
          (fun a : JobApplication => a.id) := by
        funext a
        exact update_preserves_id e d a
      have hmap : ((applyOp apps (.update e d now)).map (fun a => a.id)) =
          apps.map (fun a => a.id) := by
        simp only [applyOp, handleSaveApplication, List.map_map, hcomp]
      refine ih _ T ?_ (by rw [hmap]; exact h2) h3 h4
      intro a ha
      simp only [applyOp, handleSaveApplication] at ha
      obtain ⟨b, hb, hba⟩ := List.mem_map.mp ha
      obtain ⟨t, ht, he⟩ := h1 b hb
      refine ⟨t, ht, ?_⟩
      rw [← hba, update_preserves_id, he]
    | remove i =>
      simp only [addTimes] at h3 h4
      rw [List.foldl_cons]
      refine ih _ T ?_ ?_ h3 h4
      · intro a ha
        simp only [applyOp, handleDeleteApplication] at ha
        exact h1 a (List.mem_of_mem_filter ha)
      · have hsub : ((applyOp apps (.remove i)).map (fun a => a.id)).Sublist
            (apps.map (fun a => a.id)) :=
          List.Sublist.map _ (List.filter_sublist apps)
        exact List.Nodup.sublist hsub h2

/-- C1 (amended): for every sequence of add, update and remove operations
from the empty list, if the clock values the adds observe are strictly
increasing along the sequence (no two adds in the same millisecond, no clock
step backwards), all ids in the resulting list are pairwise distinct — in
particular each freshly assigned id differs from every id present when it
was assigned. -/
theorem claim_C1 (ops : List Op) (h : (addTimes ops).Pairwise (· < ·)) :
    ((runOps ops).map (fun a => a.id)).Nodup :=
  runOps_aux ops [] [] (by simp) (by simp) (by simp) h

/-- Witness for C1: two adds at increasing clock values, an update and a
remove, ending with distinct ids. -/
theorem claim_C1_witness :
    (addTimes [Op.add sampleData 1, Op.add sampleData 2,
      Op.update (mkApp sampleData "2") sampleData 3, Op.remove "1"]).Pairwise (· < ·) ∧
    ((runOps [Op.add sampleData 1, Op.add sampleData 2,
      Op.update (mkApp sampleData "2") sampleData 3, Op.remove "1"]).map
        (fun a => a.id)).Nodup :=
  ⟨by decide, claim_C1 _ (by decide)⟩

/-- Counterexample to C1 as stated: two adds within the same millisecond
(clock value 0 twice) produce two records bearing the same id "0", so the
ids are not pairwise distinct. -/
theorem claim_C1_counterexample :
    ¬ ((runOps [Op.add sampleData 0, Op.add sampleData 0]).map
        (fun a => a.id)).Nodup := by
  decide

end JobTrack
